import Mathlib

/-!
Verification of the DNS codec, packet builder, byte buffer and cache of the
codecrafters-dns-challenge repository.  Rust sources are shallowly embedded:
byte buffers become lists of naturals (each a u8 value), fallible functions
return Except, and a Rust panic (out-of-bounds index or failed assert) is
modelled by an outer Option layer whose none means the call panics.
-/

deriving instance DecidableEq for Except

namespace DnsSpec

/-! ### Embedding of src/header.rs -/

/-- Opcode enum from src/header.rs. -/
inductive Opcode
  | Query
  | InverseQuery
  | Status
deriving DecidableEq, Repr

/-- Opcode::as_u8 from src/header.rs. -/
def Opcode.asU8 : Opcode → Nat
  | .Query => 0
  | .InverseQuery => 1
  | .Status => 2

/-- MessageType enum (field QR) from src/header.rs. -/
inductive MessageType
  | Query
  | Response
deriving DecidableEq, Repr

/-- MessageType::as_u8 from src/header.rs. -/
def MessageType.asU8 : MessageType → Nat
  | .Query => 0
  | .Response => 1

/-- ResponseCode enum from src/header.rs. -/
inductive ResponseCode
  | None
  | FormatError
  | ServerFailure
  | NameError
  | NotImplemented
  | Refused
deriving DecidableEq, Repr

/-- ResponseCode::as_u8 from src/header.rs. -/
def ResponseCode.asU8 : ResponseCode → Nat
  | .None => 0
  | .FormatError => 1
  | .ServerFailure => 2
  | .NameError => 3
  | .NotImplemented => 4
  | .Refused => 5

/-- The Header struct from src/header.rs.  u16 fields are naturals below 2^16. -/
structure Header where
  id : Nat
  message_type : MessageType
  opcode : Opcode
  authoritive_answer : Bool
  truncated : Bool
  recursion_desired : Bool
  recursion_available : Bool
  response_code : ResponseCode
  question_entries : Nat
  answer_entries : Nat
  authority_entries : Nat
  additional_entries : Nat
deriving DecidableEq, Repr

/-- Header::new from src/header.rs. -/
def Header.new (id : Nat) : Header :=
  ⟨id, .Query, .Query, false, false, false, false, .None, 0, 0, 0, 0⟩

/-- Boolean-to-bit cast (Rust `as u8` on a bool). -/
def b2n (b : Bool) : Nat := if b then 1 else 0

/-- u16::to_be_bytes: big-endian byte pair of a 16-bit value. -/
def be16 (v : Nat) : List Nat := [(v / 256) % 256, v % 256]

/-- Header::write_into from src/header.rs, as the 12 bytes stored into
buffer positions 0..11.  (The Rust function writes into a caller-supplied
slice and panics when that slice is shorter than 12 bytes; callers are
modelled separately.) -/
def Header.writeInto (h : Header) : List Nat :=
  be16 h.id ++
  [ (b2n h.recursion_desired) |||
      ((b2n h.truncated) <<< 1) |||
      ((b2n h.authoritive_answer) <<< 2) |||
      (h.opcode.asU8 <<< 6) |||
      (h.message_type.asU8 <<< 7)
  , h.response_code.asU8 ||| ((b2n h.recursion_available) <<< 7) ] ++
  be16 h.question_entries ++ be16 h.answer_entries ++
  be16 h.authority_entries ++ be16 h.additional_entries

/-- HeaderParseError from src/header.rs. -/
inductive HeaderParseError
  | UseOfReservedBits
  | UnknownOpcode
  | UnknownResponseCode
deriving DecidableEq, Repr

/-- impl TryFrom for Header from src/header.rs.  Every Rust indexing
`value[i]` is an unchecked slice index; the outer Option is none exactly
when some index is out of bounds (a panic).  Reads happen in source order:
value[3] for the reserved check, value[0..2] for id and flags, the opcode
match (early error return), value[3] for RA and the response-code match
(early error return), then value[4..11] for the four counts. -/
def Header.tryFrom (value : List Nat) : Option (Except HeaderParseError Header) :=
  match value.get? 3 with
  | none => none
  | some v3 =>
    if v3 &&& 14 ≠ 0 then some (.error .UseOfReservedBits) else
    match value.get? 0, value.get? 1, value.get? 2 with
    | some v0, some v1, some v2 =>
      let opcodeRes : Except HeaderParseError Opcode :=
        match (v2 >>> 3) &&& 15 with
        | 0 => .ok .Query
        | 1 => .ok .InverseQuery
        | 2 => .ok .Status
        | _ => .error .UnknownOpcode
      match opcodeRes with
      | .error e => some (.error e)
      | .ok opc =>
        let rcodeRes : Except HeaderParseError ResponseCode :=
          match v3 &&& 15 with
          | 0 => .ok .None
          | 1 => .ok .FormatError
          | 2 => .ok .ServerFailure
          | 3 => .ok .NameError
          | 4 => .ok .NotImplemented
          | 5 => .ok .Refused
          | _ => .error .UnknownResponseCode
        match rcodeRes with
        | .error e => some (.error e)
        | .ok rc =>
          match value.get? 4, value.get? 5, value.get? 6, value.get? 7,
                value.get? 8, value.get? 9, value.get? 10, value.get? 11 with
          | some v4, some v5, some v6, some v7,
            some v8, some v9, some v10, some v11 =>
            some (.ok
              { id := v0 * 256 + v1
              , message_type := if v2 &&& 240 = 240 then .Response else .Query
              , opcode := opc
              , authoritive_answer := v2 &&& 4 = 4
              , truncated := v2 &&& 2 = 2
              , recursion_desired := v2 &&& 1 = 1
              , recursion_available := v3 &&& 240 = 240
              , response_code := rc
              , question_entries := v4 * 256 + v5
              , answer_entries := v6 * 256 + v7
              , authority_entries := v8 * 256 + v9
              , additional_entries := v10 * 256 + v11 })
          | _, _, _, _, _, _, _, _ => none
    | _, _, _ => none

/-- DNSPacket::try_parse_header_only from src/packet.rs.  The outer Option
is none when Header::try_from panics (it receives the raw datagram of any
length); the inner Option mirrors the Rust return value. -/
def DNSPacket.tryParseHeaderOnly (buffer : List Nat) : Option (Option Header) :=
  match Header.tryFrom buffer with
  | none => none
  | some (.ok h) => some (some h)
  | some (.error _) =>
    if buffer.length ≥ 2 then
      some (some (Header.new ((buffer.getD 0 0) * 256 + buffer.getD 1 0)))
    else
      some none

/-! ### Embedding of the strict header validators (src/proto/header.rs and
src/header_view.rs) -/

/-- HeaderViewError from src/proto/header.rs. -/
inductive HeaderViewError
  | IncorrectHeaderSize (n : Nat)
  | UnknownOpcode (c : Nat)
  | UnknownResponseCode (c : Nat)
deriving DecidableEq, Repr

/-- GenericHeaderView::(Valid)::new from src/proto/header.rs: size, opcode
and response-code checks only.  The validated view is the byte list itself. -/
def GenericHeaderView.validNew (buffer : List Nat) :
    Except HeaderViewError (Option (List Nat)) :=
  if buffer.isEmpty then .ok none
  else if buffer.length ≠ 12 then .error (.IncorrectHeaderSize buffer.length)
  else
    let b2 := buffer.getD 2 0
    let b3 := buffer.getD 3 0
    if (b2 >>> 3) &&& 15 > 2 then .error (.UnknownOpcode ((b2 >>> 3) &&& 15))
    else if b3 &&& 15 > 5 then .error (.UnknownResponseCode (b3 &&& 15))
    else .ok (some buffer)

/-- DNSHeaderViewError from src/header_view.rs. -/
inductive DNSHeaderViewError
  | IncorrectHeaderSize (n : Nat)
  | ReservedBitsInUse (view : List Nat)
  | UnknownOpcode (c : Nat)
  | UnknownResponseCode (c : Nat)
deriving DecidableEq, Repr

/-- DNSHeaderView_::(Valid)::new from src/header_view.rs: size, opcode and
response-code checks, then the reserved-bit test `buffer[3] & 0b1110 != 0`. -/
def DNSHeaderView.validNew (buffer : List Nat) :
    Except DNSHeaderViewError (Option (List Nat)) :=
  if buffer.isEmpty then .ok none
  else if buffer.length ≠ 12 then .error (.IncorrectHeaderSize buffer.length)
  else
    let b2 := buffer.getD 2 0
    let b3 := buffer.getD 3 0
    if (b2 >>> 3) &&& 15 > 2 then .error (.UnknownOpcode ((b2 >>> 3) &&& 15))
    else if b3 &&& 15 > 5 then .error (.UnknownResponseCode (b3 &&& 15))
    else if b3 &&& 14 ≠ 0 then .error (.ReservedBitsInUse buffer)
    else .ok (some buffer)

/-! ### Claims C2, C3, C6 about the header codec -/

/-- C2: the claim states that every parse entry point returns a value or a
structured error and never panics, every indexed byte read being preceded by
a bounds check.  This is false: Header::try_from indexes value[3] with no
length check, so DNSPacket::try_parse_header_only panics (modelled as none)
on the 3-byte datagram [0, 0, 0] instead of returning a value or an error. -/
theorem c2_header_only_parse_panics_on_short_input :
    DnsSpec.DNSPacket.tryParseHeaderOnly [0, 0, 0] = none := by decide

/-- C3: the claim states that writing any header with legal fields and
re-parsing reproduces every field bit-exactly.  This is false: write_into
stores the opcode at bit shift 6 while try_from reads it at shift 3, so the
header with opcode InverseQuery (all other fields default) re-parses as the
error UnknownOpcode instead of the original header. -/
theorem c3_roundtrip_fails_on_inverse_query :
    DnsSpec.Header.tryFrom
        (DnsSpec.Header.writeInto
          { DnsSpec.Header.new 0 with opcode := .InverseQuery })
      = some (.error .UnknownOpcode) := by decide

/-- C6: the claim states that strict header parsing rejects a 12-octet
buffer exactly when the Z bits (mask 0x70 of byte 3) are non-zero, and never
rejects a Z-zero header for reserved-bit use regardless of RCODE.  This is
false on both sides: all three validators accept byte 3 = 0x70 (all Z bits
set), while DNSHeaderView rejects byte 3 = 0x02 (Z bits zero, RCODE =
ServerFailure) as ReservedBitsInUse, because the code masks byte 3 with
0b1110 instead of 0x70. -/
theorem c6_reserved_bit_check_uses_wrong_mask :
    DnsSpec.DNSHeaderView.validNew [0, 0, 0, 112, 0, 0, 0, 0, 0, 0, 0, 0]
        = .ok (some [0, 0, 0, 112, 0, 0, 0, 0, 0, 0, 0, 0]) ∧
    DnsSpec.GenericHeaderView.validNew [0, 0, 0, 112, 0, 0, 0, 0, 0, 0, 0, 0]
        = .ok (some [0, 0, 0, 112, 0, 0, 0, 0, 0, 0, 0, 0]) ∧
    (DnsSpec.Header.tryFrom [0, 0, 0, 112, 0, 0, 0, 0, 0, 0, 0, 0]).isSome ∧
    DnsSpec.Header.tryFrom [0, 0, 0, 112, 0, 0, 0, 0, 0, 0, 0, 0]
        ≠ some (.error .UseOfReservedBits) ∧
    DnsSpec.DNSHeaderView.validNew [0, 0, 0, 2, 0, 0, 0, 0, 0, 0, 0, 0]
        = .error (.ReservedBitsInUse [0, 0, 0, 2, 0, 0, 0, 0, 0, 0, 0, 0]) := by
  refine ⟨by decide, by decide, by decide, by decide, by decide⟩

/-! ### Embedding of src/array_buffer.rs -/

/-- usize::MAX for the 64-bit target. -/
def usizeMax : Nat := 2 ^ 64 - 1

/-- The cursor and length state of ArrayBuffer from src/array_buffer.rs.
The backing allocation is irrelevant to the Buf and BufMut cursor
arithmetic modelled here. -/
structure ArrayBuffer where
  read_cursor : Nat
  len : Nat
  max_len : Option Nat
deriving DecidableEq, Repr

/-- BufMut::remaining_mut for ArrayBuffer:
`self.max_len.unwrap_or(usize::MAX).saturating_sub(self.len)`
(Nat subtraction is saturating). -/
def ArrayBuffer.remainingMut (b : ArrayBuffer) : Nat :=
  (b.max_len.getD usizeMax) - b.len

/-- BufMut::advance_mut for ArrayBuffer:
`assert!(self.len + cnt < self.max_len.unwrap_or(usize::MAX))` then
`self.len += cnt`.  none models the assert panic. -/
def ArrayBuffer.advanceMut (b : ArrayBuffer) (cnt : Nat) : Option ArrayBuffer :=
  if b.len + cnt < b.max_len.getD usizeMax then
    some { b with len := b.len + cnt }
  else
    none

/-- Buf::remaining for ArrayBuffer: `self.len - self.read_cursor`
(Nat subtraction mirrors the u64 subtraction on the in-bounds states the
claim quantifies over). -/
def ArrayBuffer.remaining (b : ArrayBuffer) : Nat :=
  b.len - b.read_cursor

/-- Buf::advance for ArrayBuffer:
`assert!(self.read_cursor + cnt < self.len)` then `self.read_cursor += cnt`.
none models the assert panic. -/
def ArrayBuffer.advance (b : ArrayBuffer) (cnt : Nat) : Option ArrayBuffer :=
  if b.read_cursor + cnt < b.len then
    some { b with read_cursor := b.read_cursor + cnt }
  else
    none

/-- C10: for an ArrayBuffer capped at m, remaining_mut reports m - len, yet
advance_mut asserts len + cnt strictly below m, so committing exactly the
reported remaining capacity (when positive) panics and a successful
advance_mut always leaves the committed length strictly below m; likewise
advance asserts read_cursor + cnt strictly below len, so consuming exactly
remaining() (when positive) panics. -/
theorem c10_strict_advance_asserts (b : ArrayBuffer) (m : Nat)
    (hm : b.max_len = some m) (hlen : b.len ≤ m) :
    b.remainingMut = m - b.len ∧
    (0 < b.remainingMut → b.advanceMut b.remainingMut = none) ∧
    (∀ cnt b', b.advanceMut cnt = some b' → b'.len < m) ∧
    (0 < b.remaining → b.advance b.remaining = none) := by
  refine ⟨?_, ?_, ?_, ?_⟩
  · simp [ArrayBuffer.remainingMut, hm]
  · intro hpos
    simp only [ArrayBuffer.remainingMut, hm, Option.getD_some] at hpos ⊢
    have hlt : b.len < m := by omega
    simp only [ArrayBuffer.advanceMut, hm, Option.getD_some]
    have : ¬ (b.len + (m - b.len) < m) := by omega
    simp [this]
  · intro cnt b' h
    simp only [ArrayBuffer.advanceMut, hm, Option.getD_some] at h
    by_cases hc : b.len + cnt < m
    · simp only [hc, if_pos, Option.some.injEq] at h
      subst h
      simpa using hc
    · simp [hc] at h
  · intro hpos
    simp only [ArrayBuffer.remaining] at hpos ⊢
    have hrc : b.read_cursor < b.len := by omega
    simp only [ArrayBuffer.advance]
    have : ¬ (b.read_cursor + (b.len - b.read_cursor) < b.len) := by omega
    simp [this]

/-- Witness for C10 at a concrete buffer: max_len 512, committed length
500, read cursor 3. -/
theorem c10_strict_advance_asserts_witness :
    (⟨3, 500, some 512⟩ : ArrayBuffer).max_len = some 512 ∧
    (⟨3, 500, some 512⟩ : ArrayBuffer).len ≤ 512 ∧
    ((⟨3, 500, some 512⟩ : ArrayBuffer).remainingMut = 512 - 500 ∧
     (0 < (⟨3, 500, some 512⟩ : ArrayBuffer).remainingMut →
       (⟨3, 500, some 512⟩ : ArrayBuffer).advanceMut
         (⟨3, 500, some 512⟩ : ArrayBuffer).remainingMut = none) ∧
     (∀ cnt b', (⟨3, 500, some 512⟩ : ArrayBuffer).advanceMut cnt = some b' →
       b'.len < 512) ∧
     (0 < (⟨3, 500, some 512⟩ : ArrayBuffer).remaining →
       (⟨3, 500, some 512⟩ : ArrayBuffer).advance
         (⟨3, 500, some 512⟩ : ArrayBuffer).remaining = none)) :=
  ⟨rfl, by decide, c10_strict_advance_asserts ⟨3, 500, some 512⟩ 512 rfl (by decide)⟩

/-! ### Embedding of src/proto/label.rs and src/proto/domain_name.rs -/

/-- LabelError from src/proto/label.rs. -/
inductive LabelError
  | LabelLengthTooLong (n : Nat)
  | BufferTooSmall (remaining expected : Nat)
  | IllegalLabelChar (c : Nat)
  | IllegalLabelPointer (p : Nat)
  | InvalidLengthField (c : Nat)
deriving DecidableEq, Repr

/-- Label from src/proto/label.rs.  The data variant stores the label bytes
and the absolute offset of the length byte; the shared buffer reference is
passed to each function instead of being stored. -/
inductive ProtoLabel
  | data (content : List Nat) (offset : Nat)
  | pointer (offset : Nat)
deriving DecidableEq, Repr

/-- The character-validation loop of Label::parse from src/proto/label.rs:
letters anywhere, digits not at position 0, hyphen neither first nor last. -/
def checkLabelChars : List Nat → Nat → Nat → Except LabelError Unit
  | [], _, _ => .ok ()
  | c :: rest, cursor, len =>
    if (65 ≤ c ∧ c ≤ 90) ∨ (97 ≤ c ∧ c ≤ 122) then
      checkLabelChars rest (cursor + 1) len
    else if (48 ≤ c ∧ c ≤ 57) ∧ cursor ≠ 0 then
      checkLabelChars rest (cursor + 1) len
    else if c = 45 ∧ cursor ≠ 0 ∧ cursor + 1 ≠ len then
      checkLabelChars rest (cursor + 1) len
    else
      .error (.IllegalLabelChar c)

/-- Label::parse from src/proto/label.rs (FromPacketBytes impl).  A zero
length byte is the end marker (ok none); top bits 11 form a 14-bit pointer
that must fall inside the buffer; otherwise a data label is length- and
character-checked. -/
def labelParse (bytes : List Nat) (offset : Nat) :
    Except LabelError (Option ProtoLabel) :=
  match bytes.get? offset with
  | none => .error (.BufferTooSmall 0 1)
  | some len =>
    if len = 0 then .ok none
    else if len &&& 192 = 192 then
      match bytes.get? (offset + 1) with
      | none => .error (.BufferTooSmall (bytes.length - offset) 2)
      | some b2 =>
        let p := (len &&& 63) * 256 + b2
        if p ≥ bytes.length then .error (.IllegalLabelPointer p)
        else .ok (some (.pointer p))
    else if offset + 1 + len > bytes.length then
      .error (.BufferTooSmall (bytes.length - offset) len)
    else if len > 63 then .error (.LabelLengthTooLong len)
    else if len &&& 192 ≠ 0 then .error (.InvalidLengthField len)
    else
      match checkLabelChars ((bytes.drop (offset + 1)).take len) 0 len with
      | .error e => .error e
      | .ok _ => .ok (some (.data ((bytes.drop (offset + 1)).take len) offset))

/-- The LabelIter state from src/proto/label.rs: the yielded_self flag, the
current label, and the pointer_mask.  The source initialises pointer_mask to
0 and never assigns it again. -/
structure LabelIter where
  yielded_self : Bool
  label : Option ProtoLabel
  pointer_mask : Nat
deriving DecidableEq, Repr

/-- IntoIterator for Label from src/proto/label.rs. -/
def ProtoLabel.intoIter (l : ProtoLabel) : LabelIter := ⟨false, some l, 0⟩

/-- Iterator::next for LabelIter from src/proto/label.rs.  Returns the
yielded item (none meaning iteration ended) together with the successor
state.  The pointer branch tests `pointer_mask & (1u16 << offset)` — the
shift is reduced modulo 2^16 as on a release build — and only errors when
that test is non-zero; on an Ok(Some) result the current label is replaced,
on Ok(None) it is cleared, and on Err it is left unchanged. -/
def LabelIter.next (bytes : List Nat) (s : LabelIter) :
    Option (Except LabelError ProtoLabel) × LabelIter :=
  if !s.yielded_self then
    (s.label.map .ok, { s with yielded_self := true })
  else
    match s.label with
    | none => (none, s)
    | some l =>
      let nxt : Except LabelError (Option ProtoLabel) :=
        match l with
        | .data content off => labelParse bytes (off + 1 + content.length)
        | .pointer off =>
          if s.pointer_mask &&& ((1 <<< off) % 65536) ≠ 0 then
            .error (.IllegalLabelPointer off)
          else labelParse bytes off
      let s2 :=
        match nxt with
        | .ok (some l2) => { s with label := some l2 }
        | .ok none => { s with label := none }
        | .error _ => s
      let out : Option (Except LabelError ProtoLabel) :=
        match nxt with
        | .ok (some l2) => some (.ok l2)
        | .ok none => none
        | .error e => some (.error e)
      (out, s2)

/-- The label-counting loop of DomainName::parse from
src/proto/domain_name.rs, made total by fuel: none means the loop has not
finished within fuel iterations. -/
def domainNameLoop (bytes : List Nat) : Nat → LabelIter → Nat → Option (Except LabelError Nat)
  | 0, _, _ => none
  | fuel + 1, s, len =>
    match LabelIter.next bytes s with
    | (none, _) => some (.ok len)
    | (some (.error e), _) => some (.error e)
    | (some (.ok l), s2) =>
      domainNameLoop bytes fuel s2
        (match l with
         | .data _ _ => len + 1
         | .pointer _ => len)

/-- The DomainName view from src/proto/domain_name.rs: first label and
number of data labels. -/
structure DomainNameView where
  first : Option ProtoLabel
  len : Nat
deriving DecidableEq, Repr

/-- DomainName::parse from src/proto/domain_name.rs, with fuel bounding the
label walk: none means the walk did not finish within fuel iterator steps. -/
def domainNameParse (bytes : List Nat) (offset fuel : Nat) :
    Option (Except LabelError (Option DomainNameView)) :=
  match labelParse bytes offset with
  | .error e => some (.error e)
  | .ok none => some (.ok (some ⟨none, 0⟩))
  | .ok (some l) =>
    match domainNameLoop bytes fuel l.intoIter 0 with
    | none => none
    | some (.error e) => some (.error e)
    | some (.ok n) => some (.ok (some ⟨some l, n⟩))

/-- On the self-pointing buffer the iterator is stuck: from the
yielded-self state holding Pointer(0) every step re-yields Pointer(0) in the
same state, because pointer_mask is 0 forever, so the counting loop never
returns for any amount of fuel. -/
theorem domainNameLoop_self_pointer_stuck (fuel len : Nat) :
    domainNameLoop [192, 0] fuel ⟨true, some (.pointer 0), 0⟩ len = none := by
  induction fuel generalizing len with
  | zero => rfl
  | succ n ih =>
    have hstep : LabelIter.next [192, 0] ⟨true, some (.pointer 0), 0⟩
        = (some (.ok (.pointer 0)), ⟨true, some (.pointer 0), 0⟩) := by decide
    simp only [domainNameLoop, hstep]
    exact ih len

/-- C1: the claim states that on a message whose compression pointers form
a cycle the label walk terminates and the name is rejected with the
cyclic-pointer error.  This is false: no CyclicPointers error exists in
LabelError, and because LabelIter never adds visited offsets to
pointer_mask, DomainName::parse diverges on the two-byte message
[0xC0, 0x00] whose pointer targets its own length byte — for every fuel
bound the walk is still running (result none), so the Rust loop never
terminates at all. -/
theorem c1_cyclic_pointer_walk_diverges (fuel : Nat) :
    domainNameParse [192, 0] 0 fuel = none := by
  have hfirst : labelParse [192, 0] 0 = .ok (some (.pointer 0)) := by decide
  simp only [domainNameParse, hfirst, ProtoLabel.intoIter]
  cases fuel with
  | zero =>
    have h1 : LabelIter.next [192, 0] ⟨false, some (.pointer 0), 0⟩
        = (some (.ok (.pointer 0)), ⟨true, some (.pointer 0), 0⟩) := by decide
    rfl
  | succ n =>
    have h1 : LabelIter.next [192, 0] ⟨false, some (.pointer 0), 0⟩
        = (some (.ok (.pointer 0)), ⟨true, some (.pointer 0), 0⟩) := by decide
    simp only [domainNameLoop, h1]
    rw [domainNameLoop_self_pointer_stuck]

/-! ### Embedding of src/types.rs (Type, QType, Class, QClass) -/

/-- The Type enum from src/types.rs (named DnsType because Type is a Lean
keyword). -/
inductive DnsType
  | A | NS | MD | MF | CNAME | SOA | MB | MG | MR | NULL
  | WKS | PTR | HINFO | MINFO | MX | TXT
deriving DecidableEq, Repr

/-- Type::as_u16 from src/types.rs. -/
def DnsType.asU16 : DnsType → Nat
  | .A => 1 | .NS => 2 | .MD => 3 | .MF => 4 | .CNAME => 5 | .SOA => 6
  | .MB => 7 | .MG => 8 | .MR => 9 | .NULL => 10 | .WKS => 11 | .PTR => 12
  | .HINFO => 13 | .MINFO => 14 | .MX => 15 | .TXT => 16

/-- impl TryFrom for Type from src/types.rs; the error carries the unknown
number (UnknownType). -/
def DnsType.tryFrom (v : Nat) : Except Nat DnsType :=
  match v with
  | 1 => .ok .A | 2 => .ok .NS | 3 => .ok .MD | 4 => .ok .MF
  | 5 => .ok .CNAME | 6 => .ok .SOA | 7 => .ok .MB | 8 => .ok .MG
  | 9 => .ok .MR | 10 => .ok .NULL | 11 => .ok .WKS | 12 => .ok .PTR
  | 13 => .ok .HINFO | 14 => .ok .MINFO | 15 => .ok .MX | 16 => .ok .TXT
  | v => .error v

/-- The QType enum from src/types.rs. -/
inductive QType
  | A | NS | MD | MF | CNAME | SOA | MB | MG | MR | NULL
  | WKS | PTR | HINFO | MINFO | MX | TXT
  | AXFR | MAILB | MAILA | All
deriving DecidableEq, Repr

/-- From Type for QType from src/types.rs. -/
def DnsType.toQType : DnsType → QType
  | .A => .A | .NS => .NS | .MD => .MD | .MF => .MF | .CNAME => .CNAME
  | .SOA => .SOA | .MB => .MB | .MG => .MG | .MR => .MR | .NULL => .NULL
  | .WKS => .WKS | .PTR => .PTR | .HINFO => .HINFO | .MINFO => .MINFO
  | .MX => .MX | .TXT => .TXT

/-- QType::as_u16 from src/types.rs. -/
def QType.asU16 : QType → Nat
  | .A => 1 | .NS => 2 | .MD => 3 | .MF => 4 | .CNAME => 5 | .SOA => 6
  | .MB => 7 | .MG => 8 | .MR => 9 | .NULL => 10 | .WKS => 11 | .PTR => 12
  | .HINFO => 13 | .MINFO => 14 | .MX => 15 | .TXT => 16
  | .AXFR => 252 | .MAILB => 253 | .MAILA => 254 | .All => 255

/-- impl TryFrom for QType from src/types.rs. -/
def QType.tryFrom (v : Nat) : Except Nat QType :=
  match DnsType.tryFrom v with
  | .ok t => .ok t.toQType
  | .error val =>
    match val with
    | 252 => .ok .AXFR
    | 253 => .ok .MAILB
    | 254 => .ok .MAILA
    | 255 => .ok .All
    | val => .error val

/-- The Class enum from src/types.rs (named DnsClass to avoid clashing with
the Lean keyword class). -/
inductive DnsClass
  | IN | CS | CH | HS
deriving DecidableEq, Repr

/-- Class::as_u16 from src/types.rs. -/
def DnsClass.asU16 : DnsClass → Nat
  | .IN => 1 | .CS => 2 | .CH => 3 | .HS => 4

/-- impl TryFrom for Class from src/types.rs (error carries the unknown
number, UnknownClass). -/
def DnsClass.tryFrom (v : Nat) : Except Nat DnsClass :=
  match v with
  | 1 => .ok .IN | 2 => .ok .CS | 3 => .ok .CH | 4 => .ok .HS
  | v => .error v

/-- The QClass enum from src/types.rs. -/
inductive QClass
  | IN | CS | CH | HS | Any
deriving DecidableEq, Repr

/-- QClass::as_u16 from src/types.rs. -/
def QClass.asU16 : QClass → Nat
  | .IN => 1 | .CS => 2 | .CH => 3 | .HS => 4 | .Any => 255

/-- From Class for QClass from src/types.rs. -/
def DnsClass.toQClass : DnsClass → QClass
  | .IN => .IN | .CS => .CS | .CH => .CH | .HS => .HS

/-- impl TryFrom for QClass from src/types.rs. -/
def QClass.tryFrom (v : Nat) : Except Nat QClass :=
  match DnsClass.tryFrom v with
  | .ok c => .ok c.toQClass
  | .error val =>
    match val with
    | 255 => .ok .Any
    | val => .error val

/-! ### Embedding of src/question.rs -/

/-- One continuation byte test for UTF-8 validation. -/
def utf8Cont (lo hi : Nat) (b : Option Nat) : Bool :=
  match b with
  | some v => decide (lo ≤ v ∧ v ≤ hi)
  | none => false

/-- UTF-8 validity of a byte sequence, following the byte-range table of
RFC 3629 as std::str::from_utf8 does.  The fuel argument only makes the
recursion structural; every step consumes at least one byte, so fuel equal
to the list length (as passed by isUtf8) never runs out. -/
def isUtf8Go : Nat → List Nat → Bool
  | _, [] => true
  | 0, _ :: _ => false
  | fuel + 1, b :: rest =>
    if b ≤ 127 then isUtf8Go fuel rest
    else if 194 ≤ b ∧ b ≤ 223 then
      utf8Cont 128 191 rest.head? && isUtf8Go fuel (rest.drop 1)
    else if b = 224 then
      utf8Cont 160 191 rest.head? && utf8Cont 128 191 (rest.drop 1).head? &&
        isUtf8Go fuel (rest.drop 2)
    else if (225 ≤ b ∧ b ≤ 236) ∨ b = 238 ∨ b = 239 then
      utf8Cont 128 191 rest.head? && utf8Cont 128 191 (rest.drop 1).head? &&
        isUtf8Go fuel (rest.drop 2)
    else if b = 237 then
      utf8Cont 128 159 rest.head? && utf8Cont 128 191 (rest.drop 1).head? &&
        isUtf8Go fuel (rest.drop 2)
    else if b = 240 then
      utf8Cont 144 191 rest.head? && utf8Cont 128 191 (rest.drop 1).head? &&
        utf8Cont 128 191 (rest.drop 2).head? && isUtf8Go fuel (rest.drop 3)
    else if 241 ≤ b ∧ b ≤ 243 then
      utf8Cont 128 191 rest.head? && utf8Cont 128 191 (rest.drop 1).head? &&
        utf8Cont 128 191 (rest.drop 2).head? && isUtf8Go fuel (rest.drop 3)
    else if b = 244 then
      utf8Cont 128 143 rest.head? && utf8Cont 128 191 (rest.drop 1).head? &&
        utf8Cont 128 191 (rest.drop 2).head? && isUtf8Go fuel (rest.drop 3)
    else false

/-- std::str::from_utf8 succeeding on a byte slice. -/
def isUtf8 (l : List Nat) : Bool := isUtf8Go l.length l

/-- ASCII byte lists pass isUtf8Go whenever the fuel covers the length. -/
theorem isUtf8Go_of_ascii :
    ∀ (fuel : Nat) (l : List Nat), (∀ b ∈ l, b ≤ 127) → l.length ≤ fuel →
      isUtf8Go fuel l = true := by
  intro fuel
  induction fuel with
  | zero =>
    intro l h hlen
    cases l with
    | nil => rfl
    | cons b rest => simp at hlen
  | succ n ih =>
    intro l h hlen
    cases l with
    | nil => rfl
    | cons b rest =>
      have hb : b ≤ 127 := h b (by simp)
      rw [isUtf8Go, if_pos hb]
      exact ih rest (fun x hx => h x (by simp [hx])) (by simp at hlen; omega)

/-- An ASCII byte list is valid UTF-8. -/
theorem isUtf8_of_ascii (l : List Nat) (h : ∀ b ∈ l, b ≤ 127) : isUtf8 l = true :=
  isUtf8Go_of_ascii l.length l h (Nat.le_refl _)

/-- QuestionParseError from src/question.rs
(the UnkonwnQClass typo comes from the source). -/
inductive QuestionParseError
  | LabelTooLarge
  | NameTooLarge
  | UnknownQType
  | UnkonwnQClass
  | IllegalName
  | EOF
deriving DecidableEq, Repr

/-- The name-walking loop of Question::try_parse from src/question.rs,
accumulating the (offset, length) pairs and the data-byte count.  fuel bounds
the loop (none = fuel exhausted; the caller passes buffer length + 1, which
always suffices because the cursor advances by at least one byte per turn).
The length check counts only label data bytes (len + part_len), the label
bound accepts part_len strictly below 63, and both precede any pointer
handling (there is none in this parser). -/
def questionWalk (buffer : List Nat) :
    Nat → Nat → Nat → List (Nat × Nat) →
    Option (Except QuestionParseError (List (Nat × Nat) × Nat))
  | 0, _, _, _ => none
  | fuel + 1, cursor, len, offsets =>
    match buffer.get? cursor with
    | none => some (.error .EOF)
    | some partLen =>
      if partLen = 0 then some (.ok (offsets, cursor + 1))
      else if len + partLen > 255 then some (.error .NameTooLarge)
      else if partLen < 63 then
        questionWalk buffer fuel (cursor + partLen + 1) (len + partLen)
          (offsets ++ [(cursor + 1, partLen)])
      else some (.error .LabelTooLarge)

/-- Question::try_parse from src/question.rs: walk the name, check four more
bytes for qtype and qclass, parse them, and require the name region to be
valid UTF-8.  Returns the label offsets, qtype, qclass and consumed size. -/
def questionTryParse (buffer : List Nat) :
    Option (Except QuestionParseError (List (Nat × Nat) × QType × QClass × Nat)) :=
  match questionWalk buffer (buffer.length + 1) 0 0 [] with
  | none => none
  | some (.error e) => some (.error e)
  | some (.ok (offsets, cursor)) =>
    if cursor + 4 > buffer.length then some (.error .EOF)
    else
      match QType.tryFrom ((buffer.getD cursor 0) * 256 + buffer.getD (cursor + 1) 0) with
      | .error _ => some (.error .UnknownQType)
      | .ok qt =>
        match QClass.tryFrom ((buffer.getD (cursor + 2) 0) * 256 + buffer.getD (cursor + 3) 0) with
        | .error _ => some (.error .UnkonwnQClass)
        | .ok qc =>
          if isUtf8 (buffer.take cursor) then
            some (.ok (offsets, qt, qc, cursor + 4))
          else some (.error .IllegalName)

/-! ### Claim C7: the name length cap of the question parser -/

/-- Wire encoding of a label sequence: each label as its length byte
followed by its bytes (the final zero octet is appended by callers). -/
def encodeName : List (List Nat) → List Nat
  | [] => []
  | l :: ls => (l.length :: l) ++ encodeName ls

/-- The (offset, length) pairs Question::try_parse records for a name whose
first length byte sits at position pos - 1. -/
def expectedOffsets (pos : Nat) : List (List Nat) → List (Nat × Nat)
  | [] => []
  | l :: ls => (pos, l.length) :: expectedOffsets (pos + l.length + 1) ls

theorem get?_append_cons (pre : List Nat) (x : Nat) (t : List Nat) :
    (pre ++ x :: t).get? pre.length = some x := by
  rw [List.get?_append_right (Nat.le_refl _)]
  simp

theorem encodeName_length_ge (labels : List (List Nat)) :
    labels.length ≤ (encodeName labels).length := by
  induction labels with
  | nil => simp [encodeName]
  | cons l ls ih => simp [encodeName]; omega

/-- Behaviour of the question name walk on an encoded label sequence, for
any starting position, accumulated data length and fuel bound: it rejects
with NameTooLarge exactly when the accumulated label data bytes exceed 255,
and otherwise records one (offset, length) pair per label. -/
theorem questionWalk_encode :
    ∀ (labels : List (List Nat)) (pre tail2 : List Nat) (fuel acc : Nat)
      (offs : List (Nat × Nat)),
      (∀ l ∈ labels, 0 < l.length ∧ l.length < 63) →
      acc ≤ 255 →
      labels.length < fuel →
      questionWalk (pre ++ (encodeName labels ++ 0 :: tail2)) fuel pre.length acc offs
        = some (if 255 < acc + (labels.map List.length).sum
                then .error .NameTooLarge
                else .ok (offs ++ expectedOffsets (pre.length + 1) labels,
                          pre.length + (encodeName labels).length + 1)) := by
  intro labels
  induction labels with
  | nil =>
    intro pre tail2 fuel acc offs _ hacc hfuel
    obtain ⟨f, rfl⟩ : ∃ f, fuel = f + 1 := ⟨fuel - 1, by omega⟩
    rw [questionWalk]
    simp only [encodeName, List.nil_append, get?_append_cons]
    have hcond : ¬ 255 < acc := by omega
    simp [hcond, expectedOffsets, encodeName]
  | cons l ls ih =>
    intro pre tail2 fuel acc offs hvalid hacc hfuel
    obtain ⟨f, rfl⟩ : ∃ f, fuel = f + 1 := ⟨fuel - 1, by omega⟩
    have hl := hvalid l (by simp)
    have hbuf : pre ++ (encodeName (l :: ls) ++ 0 :: tail2)
        = pre ++ l.length :: (l ++ (encodeName ls ++ 0 :: tail2)) := by
      simp [encodeName]
    rw [questionWalk, hbuf, get?_append_cons]
    have hne : ¬ l.length = 0 := by omega
    simp only [hne, if_false]
    by_cases hover : acc + l.length > 255
    · have hcond : 255 < acc + (l.length + (List.map List.length ls).sum) := by omega
      simp [hover, hcond]
    · have hlt : l.length < 63 := hl.2
      simp only [hover, if_false, hlt, if_true]
      have hpre : (pre ++ l.length :: l).length = pre.length + l.length + 1 := by
        simp; omega
      have hrearr : pre ++ l.length :: (l ++ (encodeName ls ++ 0 :: tail2))
          = (pre ++ l.length :: l) ++ (encodeName ls ++ 0 :: tail2) := by
        simp
      rw [hrearr, show pre.length + l.length + 1 = (pre ++ l.length :: l).length from hpre.symm]
      rw [ih (pre ++ l.length :: l) tail2 f (acc + l.length) (offs ++ [(pre.length + 1, l.length)])
            (fun x hx => hvalid x (by simp [hx])) (by omega) (by simp at hfuel ⊢; omega)]
      by_cases hc : 255 < acc + (l.length + (List.map List.length ls).sum)
      · have hc2 : 255 < acc + l.length + (List.map List.length ls).sum := by omega
        simp [hc, hc2]
      · have hc2 : ¬ 255 < acc + l.length + (List.map List.length ls).sum := by omega
        simp only [hc, hc2, if_false]
        have hoffs : offs ++ [(pre.length + 1, l.length)]
              ++ expectedOffsets ((pre ++ l.length :: l).length + 1) ls
            = offs ++ expectedOffsets (pre.length + 1) (l :: ls) := by
          rw [expectedOffsets]
          have : (pre ++ l.length :: l).length + 1 = pre.length + 1 + l.length + 1 := by
            simp; omega
          rw [this]
          simp
        have hlen2 : (pre ++ l.length :: l).length + (encodeName ls).length + 1
            = pre.length + (encodeName (l :: ls)).length + 1 := by
          simp [encodeName]
          omega
        rw [hoffs, hlen2]
        simp [List.map_cons, List.sum_cons, hc]

theorem getD_append_off (l₁ l₂ : List Nat) (k d : Nat) :
    (l₁ ++ l₂).getD (l₁.length + k) d = l₂.getD k d := by
  simp only [List.getD_eq_getElem?_getD]
  rw [List.getElem?_append_right (by omega : l₁.length ≤ l₁.length + k)]
  simp

theorem take_append_one (l₁ : List Nat) (x : Nat) (t : List Nat) :
    (l₁ ++ x :: t).take (l₁.length + 1) = l₁ ++ [x] := by
  rw [List.take_append_eq_append_take]
  simp

theorem encodeName_ascii (labels : List (List Nat))
    (hvalid : ∀ l ∈ labels, 0 < l.length ∧ l.length < 63)
    (hascii : ∀ l ∈ labels, ∀ b ∈ l, b ≤ 127) :
    ∀ b ∈ encodeName labels, b ≤ 127 := by
  induction labels with
  | nil => simp [encodeName]
  | cons l ls ih =>
    intro b hb
    simp only [encodeName, List.cons_append, List.mem_cons, List.mem_append] at hb
    rcases hb with hb | hb | hb
    · have := (hvalid l (by simp)).2
      omega
    · exact hascii l (by simp) b hb
    · exact ih (fun x hx => hvalid x (by simp [hx]))
        (fun x hx => hascii x (by simp [hx])) b hb

/-- C7 (amended): Question::try_parse applies the 255-octet cap to the sum
of the label data bytes only — not to the expanded length including length
bytes: a wire name made of labels of sizes 1..62 followed by a QType A and
QClass IN trailer is rejected with NameTooLarge exactly when its data bytes
exceed 255, and otherwise parses successfully with one recorded offset per
label. -/
theorem c7_name_cap_counts_data_bytes_only
    (labels : List (List Nat)) (tail : List Nat)
    (hvalid : ∀ l ∈ labels, 0 < l.length ∧ l.length < 63)
    (hascii : ∀ l ∈ labels, ∀ b ∈ l, b ≤ 127) :
    questionTryParse (encodeName labels ++ 0 :: 0 :: 1 :: 0 :: 1 :: tail)
      = some (if 255 < (labels.map List.length).sum
              then .error .NameTooLarge
              else .ok (expectedOffsets 1 labels, .A, .IN,
                        (encodeName labels).length + 5)) := by
  have hfuel : labels.length <
      (encodeName labels ++ 0 :: 0 :: 1 :: 0 :: 1 :: tail).length + 1 := by
    have := encodeName_length_ge labels
    simp only [List.length_append, List.length_cons]
    omega
  have hwalk := questionWalk_encode labels [] (0 :: 1 :: 0 :: 1 :: tail)
      ((encodeName labels ++ 0 :: 0 :: 1 :: 0 :: 1 :: tail).length + 1) 0 []
      hvalid (by omega) (by simpa using hfuel)
  simp only [List.nil_append, List.length_nil, Nat.zero_add] at hwalk
  rw [questionTryParse, hwalk]
  by_cases hov : 255 < (labels.map List.length).sum
  · have h0 : 255 < 0 + (labels.map List.length).sum := by omega
    simp [h0, hov]
  · have h0 : ¬ 255 < 0 + (labels.map List.length).sum := by omega
    simp only [h0, if_false, hov]
    have hnoeof : ¬ ((encodeName labels).length + 1 + 4 >
        (encodeName labels ++ 0 :: 0 :: 1 :: 0 :: 1 :: tail).length) := by
      simp only [List.length_append, List.length_cons]
      omega
    simp only [hnoeof, if_false]
    have hg1 : (encodeName labels ++ 0 :: 0 :: 1 :: 0 :: 1 :: tail).getD
        ((encodeName labels).length + 1) 0 = 0 := getD_append_off _ _ 1 0
    have hg2 : (encodeName labels ++ 0 :: 0 :: 1 :: 0 :: 1 :: tail).getD
        ((encodeName labels).length + 1 + 1) 0 = 1 := by
      have := getD_append_off (encodeName labels) (0 :: 0 :: 1 :: 0 :: 1 :: tail) 2 0
      simpa [Nat.add_assoc] using this
    have hg3 : (encodeName labels ++ 0 :: 0 :: 1 :: 0 :: 1 :: tail).getD
        ((encodeName labels).length + 1 + 2) 0 = 0 := by
      have := getD_append_off (encodeName labels) (0 :: 0 :: 1 :: 0 :: 1 :: tail) 3 0
      simpa [Nat.add_assoc] using this
    have hg4 : (encodeName labels ++ 0 :: 0 :: 1 :: 0 :: 1 :: tail).getD
        ((encodeName labels).length + 1 + 3) 0 = 1 := by
      have := getD_append_off (encodeName labels) (0 :: 0 :: 1 :: 0 :: 1 :: tail) 4 0
      simpa [Nat.add_assoc] using this
    rw [hg1, hg2, hg3, hg4]
    have hqt : QType.tryFrom (0 * 256 + 1) = .ok .A := by decide
    have hqc : QClass.tryFrom (0 * 256 + 1) = .ok .IN := by decide
    rw [hqt, hqc]
    have htake : (encodeName labels ++ 0 :: 0 :: 1 :: 0 :: 1 :: tail).take
        ((encodeName labels).length + 1) = encodeName labels ++ [0] :=
      take_append_one _ _ _
    have hutf : isUtf8 ((encodeName labels ++ 0 :: 0 :: 1 :: 0 :: 1 :: tail).take
        ((encodeName labels).length + 1)) = true := by
      rw [htake]
      refine isUtf8_of_ascii _ ?_
      intro b hb
      rcases List.mem_append.mp hb with hb | hb
      · exact encodeName_ascii labels hvalid hascii b hb
      · simp at hb
        omega
    rw [hutf]
    simp only [if_true]

/-- The five-label name used to refute C7 as stated: four 62-byte labels
and one 5-byte label, 253 data bytes, expanded length 259 octets. -/
def c7Labels : List (List Nat) :=
  [List.replicate 62 97, List.replicate 62 97, List.replicate 62 97,
   List.replicate 62 97, List.replicate 5 97]

/-- The wire question carrying that name with QType A and QClass IN. -/
def c7Bytes : List Nat := encodeName c7Labels ++ [0, 0, 1, 0, 1]

set_option maxRecDepth 10000 in
/-- C7 (counterexample): the claim states that every wire name whose
expanded length (including length bytes) exceeds 255 octets is rejected.
This name expands to 259 octets (253 data + 5 length bytes + terminator),
yet Question::try_parse accepts it, because the cap compares only the
accumulated data bytes (253 ≤ 255) and ignores length bytes. -/
theorem c7_expanded_length_cap_refuted :
    (encodeName c7Labels).length + 1 = 259 ∧
    questionTryParse c7Bytes
      = some (.ok ([(1, 62), (64, 62), (127, 62), (190, 62), (253, 5)],
                   .A, .IN, 263)) := by
  constructor
  · decide
  · decide

/-- Witness for C7 at the concrete one-label name of the single byte 97:
the hypotheses hold
and the parse succeeds with a single offset pair. -/
theorem c7_name_cap_counts_data_bytes_only_witness :
    (∀ l ∈ [[97]], 0 < List.length l ∧ List.length l < 63) ∧
    (∀ l ∈ [[97]], ∀ b ∈ l, b ≤ 127) ∧
    questionTryParse (encodeName [[97]] ++ 0 :: 0 :: 1 :: 0 :: 1 :: [])
      = some (if 255 < (List.map List.length [[97]]).sum
              then .error .NameTooLarge
              else .ok (expectedOffsets 1 [[97]], .A, .IN,
                        (encodeName [[97]]).length + 5)) :=
  ⟨by decide, by decide,
   c7_name_cap_counts_data_bytes_only [[97]] [] (by decide) (by decide)⟩

/-! ### Embedding of src/packet.rs (builder with name compression)

The builder-side DomainName, Question and Resource value types of this
iteration are not present under src; their fields and sizes follow
src/types.rs (DomainName::len_in_packet, CowData) and src/resource.rs
(Resource::len_in_packet), with names as lists of label byte strings and
the case-insensitive equality of src/domain_name.rs (label comparison by
eq_ignore_ascii_case, i.e. equality of ASCII-lowercased bytes). -/

/-- u8::to_ascii_lowercase. -/
def asciiLower (b : Nat) : Nat := if 65 ≤ b ∧ b ≤ 90 then b + 32 else b

/-- A label normalised for case-insensitive comparison. -/
def normLabel (l : List Nat) : List Nat := l.map asciiLower

/-- A name normalised for case-insensitive comparison. -/
def normName (n : List (List Nat)) : List (List Nat) := n.map normLabel

/-- DomainName equality: label sequences equal under
eq_ignore_ascii_case (equivalently, equal lowercased forms). -/
def nameEq (a b : List (List Nat)) : Bool := normName a == normName b

/-- The compression table: (name, absolute offset) pairs; `iter().find`
takes the first matching entry. -/
def findWritten (written : List (List (List Nat) × Nat)) (n : List (List Nat)) :
    Option (List (List Nat) × Nat) :=
  written.find? (fun e => nameEq e.1 n)

/-- DomainName::len_in_packet from src/types.rs:
one terminator byte plus, per label, a length byte and the label bytes. -/
def nameLenInPacket (n : List (List Nat)) : Nat :=
  1 + (n.map (fun l => l.length + 1)).sum

/-- u32::to_be_bytes. -/
def be32 (v : Nat) : List Nat :=
  [(v / 16777216) % 256, (v / 65536) % 256, (v / 256) % 256, v % 256]

/-- The label-writing loop of write_name from src/packet.rs: emits each
label, and (when compressing) after each label looks the remaining suffix
up in the table; on a hit it emits the two pointer bytes, appends the
labels of the stored name to domain_labels, and stops with pointer set to
the label count of the stored name.  Returns the bytes written, the accumulated
domain_labels and the pointer value. -/
def writeNameLoop (compress : Bool) (written : List (List (List Nat) × Nat)) :
    List (List Nat) → List (List Nat) → List Nat × List (List Nat) × Nat
  | [], dl => ([], dl, 0)
  | l :: rest, dl =>
    let bytes0 := l.length :: l
    let dl1 := dl ++ [l]
    if rest.isEmpty then (bytes0, dl1, 0)
    else
      match (if compress then findWritten written rest else none) with
      | some (n, off) =>
        (bytes0 ++ [((off >>> 8) &&& 63) ||| 192, off % 256], dl1 ++ n, n.length)
      | none =>
        let r := writeNameLoop compress written rest dl1
        (bytes0 ++ r.1, r.2.1, r.2.2)

/-- One entry of the suffix-recording loop of write_name: for index i, the
last (pointer + i) domain labels, and the offset size - buffer_len where
buffer_len counts one terminator byte plus length byte and bytes of the
explicitly written part only (the source comment assumes a trailing null
even when the name ended in a two-byte pointer). -/
def suffixEntry (dl : List (List Nat)) (pointer size i : Nat) :
    List (List Nat) × Nat :=
  let labels := dl.drop (dl.length - pointer - i)
  let bufferLen :=
    1 + ((labels.take (labels.length - pointer)).map (fun l => l.length + 1)).sum
  (labels, size - bufferLen)

/-- The suffix-recording loop of write_name, pushing entries for
i = 1 .. dl.length - pointer in order. -/
def recordSuffixes (dl : List (List Nat)) (pointer size count : Nat) :
    List (List (List Nat) × Nat) :=
  (List.range count).map (fun k => suffixEntry dl pointer size (k + 1))

/-- write_name from src/packet.rs.  size is the running absolute output
size (the source increments it in lockstep with every byte written, so the
new size is the old one plus the emitted byte count).  Returns the emitted
bytes, the new size and the updated compression table. -/
def writeName (compress : Bool) (name : List (List Nat)) (size : Nat)
    (written : List (List (List Nat) × Nat)) :
    List Nat × Nat × List (List (List Nat) × Nat) :=
  match (if compress then findWritten written name else none) with
  | some e =>
    ([((e.2 >>> 8) &&& 63) ||| 192, e.2 % 256], size + 2, written)
  | none =>
    let r := writeNameLoop compress written name []
    let bs2 := if r.2.2 = 0 then r.1 ++ [0] else r.1
    let size2 := size + bs2.length
    (bs2, size2, written ++ recordSuffixes r.2.1 r.2.2 size2 (r.2.1.length - r.2.2))

/-- The builder-side Question (name, qtype, qclass). -/
structure BQuestion where
  name : List (List Nat)
  q_type : QType
  q_class : QClass
deriving DecidableEq, Repr

/-- Question wire size: name size plus four octets. -/
def BQuestion.lenInPacket (q : BQuestion) : Nat := nameLenInPacket q.name + 4

/-- The builder-side Resource from src/resource.rs. -/
structure BResource where
  name : List (List Nat)
  typ : DnsType
  cls : DnsClass
  ttl : Nat
  data : List Nat
deriving DecidableEq, Repr

/-- Resource::len_in_packet from src/resource.rs:
10 + name size + rdata length. -/
def BResource.lenInPacket (r : BResource) : Nat :=
  10 + nameLenInPacket r.name + r.data.length

/-- WritePacketError from src/packet.rs. -/
inductive WritePacketError
  | TooLarge
deriving DecidableEq, Repr

/-- DNSPacketBuilder from src/packet.rs. -/
structure DNSPacketBuilder where
  header : Header
  questions : List BQuestion
  answers : List BResource
  compress : Bool
deriving DecidableEq, Repr

/-- DNSPacketBuilder::add_question from src/packet.rs: push the question
and bump QDCOUNT. -/
def DNSPacketBuilder.addQuestion (b : DNSPacketBuilder) (q : BQuestion) :
    DNSPacketBuilder :=
  { b with
    questions := b.questions ++ [q]
    header := { b.header with question_entries := b.header.question_entries + 1 } }

/-- DNSPacketBuilder::add_answer from src/packet.rs: push the answer and
bump ANCOUNT. -/
def DNSPacketBuilder.addAnswer (b : DNSPacketBuilder) (a : BResource) :
    DNSPacketBuilder :=
  { b with
    answers := b.answers ++ [a]
    header := { b.header with answer_entries := b.header.answer_entries + 1 } }

/-- DNSPacketBuilder::disable_compression from src/packet.rs. -/
def DNSPacketBuilder.disableCompression (b : DNSPacketBuilder) : DNSPacketBuilder :=
  { b with compress := false }

/-- The question-writing loop of build_into: before each question the
source checks `question.len_in_packet() > buffer.len()` (the remaining
capacity cap - size) and returns Err(TooLarge); otherwise it writes the
name followed by qtype and qclass. -/
def writeQuestions (compress : Bool) (cap : Nat) :
    List BQuestion → List Nat → Nat → List (List (List Nat) × Nat) →
    Except WritePacketError (List Nat × Nat × List (List (List Nat) × Nat))
  | [], out, size, written => .ok (out, size, written)
  | q :: qs, out, size, written =>
    if q.lenInPacket > cap - size then .error .TooLarge
    else
      let r := writeName compress q.name size written
      writeQuestions compress cap qs
        (out ++ r.1 ++ be16 q.q_type.asU16 ++ be16 q.q_class.asU16)
        (r.2.1 + 4) r.2.2

/-- The answer-writing loop of build_into: same capacity check with
Err(TooLarge), then name, type, class, ttl, rdlength and rdata. -/
def writeAnswers (compress : Bool) (cap : Nat) :
    List BResource → List Nat → Nat → List (List (List Nat) × Nat) →
    Except WritePacketError (List Nat × Nat × List (List (List Nat) × Nat))
  | [], out, size, written => .ok (out, size, written)
  | a :: rest, out, size, written =>
    if a.lenInPacket > cap - size then .error .TooLarge
    else
      let r := writeName compress a.name size written
      writeAnswers compress cap rest
        (out ++ r.1 ++ be16 a.typ.asU16 ++ be16 a.cls.asU16 ++ be32 a.ttl
           ++ be16 (a.data.length % 65536) ++ a.data)
        (r.2.1 + 10 + a.data.length) r.2.2

/-- DNSPacketBuilder::build_into from src/packet.rs, into an output buffer
of cap bytes: the header (with whatever counts add_question and add_answer
accumulated) is written first — panicking (none) when cap < 12 — and then
questions and answers are emitted with the per-record capacity checks.
On success the output is the header bytes followed by the body. -/
def DNSPacketBuilder.buildInto (b : DNSPacketBuilder) (cap : Nat) :
    Option (Except WritePacketError (List Nat)) :=
  if cap < 12 then none
  else
    match writeQuestions b.compress cap b.questions [] 12 [] with
    | .error e => some (.error e)
    | .ok (body1, size1, written1) =>
      match writeAnswers b.compress cap b.answers body1 size1 written1 with
      | .error e => some (.error e)
      | .ok (body2, _, _) => some (.ok (b.header.writeInto ++ body2))

/-! ### Parsing the builder output with the proto codec (src/proto) -/

/-- DomainName::size_in_packet from src/proto/domain_name.rs: walk the
labels from the first one; a data label adds its length byte plus bytes, a
pointer ends the walk adding two bytes, the end marker adds the single
terminator byte.  fuel-bounded (none = walk still running, or a label error
that the source turns into a panic via expect). -/
def nameSizeLoop (bytes : List Nat) : Nat → LabelIter → Nat → Option Nat
  | 0, _, _ => none
  | fuel + 1, s, acc =>
    match LabelIter.next bytes s with
    | (none, _) => some (1 + acc)
    | (some (.error _), _) => none
    | (some (.ok (.data c _)), s2) => nameSizeLoop bytes fuel s2 (acc + 1 + c.length)
    | (some (.ok (.pointer _)), _) => some (acc + 2)

/-- The data-label contents yielded by DomainName::iter from
src/proto/domain_name.rs (transparently following pointers), which is also
the error behaviour of the counting loop of DomainName::parse.
fuel-bounded (none = walk still running). -/
def nameLabelsLoop (bytes : List Nat) :
    Nat → LabelIter → List (List Nat) → Option (Except LabelError (List (List Nat)))
  | 0, _, _ => none
  | fuel + 1, s, acc =>
    match LabelIter.next bytes s with
    | (none, _) => some (.ok acc)
    | (some (.error e), _) => some (.error e)
    | (some (.ok (.data c _)), s2) => nameLabelsLoop bytes fuel s2 (acc ++ [c])
    | (some (.ok (.pointer _)), s2) => nameLabelsLoop bytes fuel s2 acc

/-- Errors of the per-question name walk: a label error from
DomainName::parse, or the EOF bound check of Question::parse. -/
inductive PQError
  | Label (e : LabelError)
  | EOF
deriving DecidableEq, Repr

/-- Walk count questions starting at offset as proto Question::parse and
the packet question iterator do: parse the name (label errors propagate),
check that name size plus four more octets fit the buffer, record the data
label contents of the name, and continue past qtype and qclass. -/
def parseQuestionNames (bytes : List Nat) (fuel : Nat) :
    Nat → Nat → Option (Except PQError (List (List (List Nat))))
  | 0, _ => some (.ok [])
  | k + 1, offset =>
    match labelParse bytes offset with
    | .error e => some (.error (.Label e))
    | .ok none =>
      if offset + 1 + 4 > bytes.length then some (.error .EOF)
      else
        match parseQuestionNames bytes fuel k (offset + 1 + 4) with
        | none => none
        | some (.error e) => some (.error e)
        | some (.ok rest) => some (.ok ([] :: rest))
    | .ok (some first) =>
      match nameLabelsLoop bytes fuel first.intoIter [] with
      | none => none
      | some (.error e) => some (.error (.Label e))
      | some (.ok labs) =>
        match nameSizeLoop bytes fuel first.intoIter 0 with
        | none => none
        | some sz =>
          if offset + sz + 4 > bytes.length then some (.error .EOF)
          else
            match parseQuestionNames bytes fuel k (offset + sz + 4) with
            | none => none
            | some (.error e) => some (.error e)
            | some (.ok rest) => some (.ok (labs :: rest))

/-! ### Claim C4: truncation behaviour of build_into -/

theorem writeInto_length (h : Header) : h.writeInto.length = 12 := by
  simp [Header.writeInto, be16]

theorem writeInto_getD2 (h : Header) (rest : List Nat) :
    (h.writeInto ++ rest).getD 2 0 = h.writeInto.getD 2 0 := by
  have h2 : (2 : Nat) < h.writeInto.length := by rw [writeInto_length]; omega
  simp only [List.getD_eq_getElem?_getD]
  rw [List.getElem?_append_left h2]

theorem writeInto_tc_bit (h : Header) :
    ((h.writeInto.getD 2 0) &&& 2 == 2) = h.truncated := by
  rcases h with ⟨id, mt, op, aa, tc, rd, ra, rc, qe, ae, au, ad⟩
  simp only [Header.writeInto, be16, List.cons_append, List.nil_append,
    List.getD_cons_succ, List.getD_cons_zero]
  cases mt <;> cases op <;> cases aa <;> cases tc <;> cases rd <;> decide

/-- C4 (amended): build_into never truncates: when a question or answer
does not fit in the remaining capacity it aborts the whole build with
WritePacketError::TooLarge and emits no packet; when it succeeds, the
output starts with the twelve header bytes of the builder unchanged — in
particular the TC bit of the emitted packet equals the TC flag the builder
header already carried, and the QDCOUNT/ANCOUNT written are the full
add_question/add_answer tallies, not the number of records that fit. -/
theorem c4_build_errors_instead_of_truncating (b : DNSPacketBuilder) (cap : Nat)
    (hcap : 12 ≤ cap) :
    b.buildInto cap = some (.error .TooLarge) ∨
    ∃ body, b.buildInto cap = some (.ok (b.header.writeInto ++ body)) ∧
      (((b.header.writeInto ++ body).getD 2 0) &&& 2 == 2) = b.header.truncated := by
  rw [DNSPacketBuilder.buildInto, if_neg (by omega)]
  cases hq : writeQuestions b.compress cap b.questions [] 12 [] with
  | error e => cases e; left; rfl
  | ok r =>
    obtain ⟨body1, size1, written1⟩ := r
    dsimp only
    cases ha : writeAnswers b.compress cap b.answers body1 size1 written1 with
    | error e => cases e; left; rfl
    | ok r2 =>
      obtain ⟨body2, s2, w2⟩ := r2
      right
      exact ⟨body2, rfl, by rw [writeInto_getD2, writeInto_tc_bit]⟩

/-- A question whose wire form (572 octets) exceeds the whole 512-octet
response buffer. -/
def c4BigQuestion : BQuestion :=
  ⟨List.replicate 9 (List.replicate 62 97), .A, .IN⟩

/-- A response builder whose serialization exceeds the 512-octet cap. -/
def c4Builder : DNSPacketBuilder :=
  (⟨Header.new 1, [], [], true⟩ : DNSPacketBuilder).addQuestion c4BigQuestion

/-- C4 (counterexample): the claim states that a response exceeding the
512-octet cap is emitted with TC = 1, length at most 512 and rolled-back
counts.  This is false: on this oversized response build_into emits no
packet at all — it returns Err(TooLarge) and no TC bit is ever set. -/
theorem c4_oversized_response_is_not_emitted :
    c4Builder.buildInto 512 = some (.error .TooLarge) := by decide

/-- Witness for C4 at the concrete oversized builder and a 512-octet
buffer. -/
theorem c4_build_errors_instead_of_truncating_witness :
    (12 ≤ 512) ∧
    (c4Builder.buildInto 512 = some (.error .TooLarge) ∨
     ∃ body, c4Builder.buildInto 512
         = some (.ok (c4Builder.header.writeInto ++ body)) ∧
       (((c4Builder.header.writeInto ++ body).getD 2 0) &&& 2 == 2)
         = c4Builder.header.truncated) :=
  ⟨by omega, c4_build_errors_instead_of_truncating c4Builder 512 (by omega)⟩

/-! ### Claim C5: compression roundtrip -/

/-- The question for the name com. -/
def c5q1 : BQuestion := ⟨[[99, 111, 109]], .A, .IN⟩

/-- The question for the name www.com. -/
def c5q2 : BQuestion := ⟨[[119, 119, 119], [99, 111, 109]], .A, .IN⟩

/-- The builder holding the questions com, www.com, www.com with
compression on. -/
def c5BuilderC : DNSPacketBuilder :=
  (((⟨Header.new 1, [], [], true⟩ : DNSPacketBuilder).addQuestion
      c5q1).addQuestion c5q2).addQuestion c5q2

/-- The same builder with compression off. -/
def c5BuilderU : DNSPacketBuilder := c5BuilderC.disableCompression

/-- The bytes produced with compression on. -/
def c5CompressedBytes : List Nat :=
  match c5BuilderC.buildInto 512 with
  | some (.ok l) => l
  | _ => []

/-- The bytes produced with compression off. -/
def c5UncompressedBytes : List Nat :=
  match c5BuilderU.buildInto 512 with
  | some (.ok l) => l
  | _ => []

/-- C5: the claim states that serializing a packet with compression on and
parsing yields the same ordered name list as serializing with compression
off and parsing.  This is false for the questions com, www.com, www.com:
www.com is written as www plus a pointer (6 bytes at offset 21), but the
suffix recorder computes its table offset assuming a trailing null byte
instead of the two pointer bytes and stores offset 22; the third question
is then emitted as a pointer to 22, the middle of the www label, so parsing
the compressed output fails with BufferTooSmall while the uncompressed
output parses to the three names. -/
theorem c5_compression_changes_parsed_names :
    c5BuilderC.buildInto 512 = some (.ok c5CompressedBytes) ∧
    c5BuilderU.buildInto 512 = some (.ok c5UncompressedBytes) ∧
    parseQuestionNames c5UncompressedBytes 100 3 12
      = some (.ok [[[99, 111, 109]],
                   [[119, 119, 119], [99, 111, 109]],
                   [[119, 119, 119], [99, 111, 109]]]) ∧
    parseQuestionNames c5CompressedBytes 100 3 12
      = some (.error (.Label (.BufferTooSmall 15 119))) := by
  refine ⟨by decide, by decide, by decide, by decide⟩

/-! ### Embedding of src/cache/mod.rs

The cache is built on evmap: each of the three maps is a multi-value map
whose readers see only the refreshed copy, while writes queue in the
oplog of the writer until refresh.  A map is modelled as the visible
association list of value-bags plus the pending operation log; publish
applies the log to the visible copy.  evmap::WriteHandle::insert appends
the value to the bag of the key, update replaces the bag with the single
value.
Keys compare with the case-insensitive equality of DomainName, modelled by
comparing normalised (lowercased) forms. -/

section BagMaps

variable {K V NK : Type} [DecidableEq NK]

/-- One buffered evmap operation. -/
inductive MapOp (K V : Type)
  | ins (k : K) (v : V)
  | upd (k : K) (v : V)

/-- The key an operation touches. -/
def MapOp.key : MapOp K V → K
  | .ins k _ => k
  | .upd k _ => k

/-- Look a key up in a bag map, comparing keys through the normaliser nk
(first matching entry, as a hash map with nk-consistent hashing finds). -/
def bagLookup (nk : K → NK) (m : List (K × List V)) (k : K) : Option (List V) :=
  (m.find? (fun e => decide (nk e.1 = nk k))).map (fun e => e.2)

/-- evmap insert: append the value to the bag of the key (creating it last). -/
def bagInsert (nk : K → NK) (m : List (K × List V)) (k : K) (v : V) :
    List (K × List V) :=
  match m with
  | [] => [(k, [v])]
  | e :: rest =>
    if nk e.1 = nk k then (e.1, e.2 ++ [v]) :: rest
    else e :: bagInsert nk rest k v

/-- evmap update: replace the bag of the key with the single value. -/
def bagUpdate (nk : K → NK) (m : List (K × List V)) (k : K) (v : V) :
    List (K × List V) :=
  match m with
  | [] => [(k, [v])]
  | e :: rest =>
    if nk e.1 = nk k then (e.1, [v]) :: rest
    else e :: bagUpdate nk rest k v

/-- Apply one buffered operation. -/
def applyOp (nk : K → NK) (m : List (K × List V)) : MapOp K V → List (K × List V)
  | .ins k v => bagInsert nk m k v
  | .upd k v => bagUpdate nk m k v

/-- Apply a whole oplog in order. -/
def applyOps (nk : K → NK) (m : List (K × List V)) (ops : List (MapOp K V)) :
    List (K × List V) :=
  ops.foldl (applyOp nk) m

theorem bagLookup_update_self (nk : K → NK) (m : List (K × List V)) (k : K) (v : V) :
    bagLookup nk (bagUpdate nk m k v) k = some [v] := by
  induction m with
  | nil => simp [bagUpdate, bagLookup, List.find?]
  | cons e rest ih =>
    by_cases h : nk e.1 = nk k
    · simp [bagUpdate, h, bagLookup, List.find?]
    · simp only [bagUpdate, if_neg h]
      simp only [bagLookup, List.find?] at ih ⊢
      simp [h, ih]

theorem bagLookup_update_other (nk : K → NK) (m : List (K × List V)) (k k' : K) (v : V)
    (hne : nk k' ≠ nk k) :
    bagLookup nk (bagUpdate nk m k' v) k = bagLookup nk m k := by
  induction m with
  | nil =>
    simp [bagUpdate, bagLookup, List.find?, fun h => hne h]
  | cons e rest ih =>
    by_cases h : nk e.1 = nk k'
    · have hk : ¬ nk e.1 = nk k := by rw [h]; exact hne
      simp [bagUpdate, h, bagLookup, List.find?, hk, hne]
    · simp only [bagUpdate, if_neg h]
      by_cases hk : nk e.1 = nk k
      · simp [bagLookup, List.find?, hk]
      · simp only [bagLookup, List.find?] at ih ⊢
        simp [hk, ih]

theorem bagLookup_insert_self (nk : K → NK) (m : List (K × List V)) (k : K) (v : V) :
    bagLookup nk (bagInsert nk m k v) k = some ((bagLookup nk m k).getD [] ++ [v]) := by
  induction m with
  | nil => simp [bagInsert, bagLookup, List.find?]
  | cons e rest ih =>
    by_cases h : nk e.1 = nk k
    · simp [bagInsert, h, bagLookup, List.find?]
    · simp only [bagInsert, if_neg h]
      simp only [bagLookup, List.find?] at ih ⊢
      simp [h, ih]

theorem bagLookup_insert_other (nk : K → NK) (m : List (K × List V)) (k k' : K) (v : V)
    (hne : nk k' ≠ nk k) :
    bagLookup nk (bagInsert nk m k' v) k = bagLookup nk m k := by
  induction m with
  | nil =>
    simp [bagInsert, bagLookup, List.find?, fun h => hne h]
  | cons e rest ih =>
    by_cases h : nk e.1 = nk k'
    · have hk : ¬ nk e.1 = nk k := by rw [h]; exact hne
      simp [bagInsert, h, bagLookup, List.find?, hk, hne]
    · simp only [bagInsert, if_neg h]
      by_cases hk : nk e.1 = nk k
      · simp [bagLookup, List.find?, hk]
      · simp only [bagLookup, List.find?] at ih ⊢
        simp [hk, ih]

/-- Applying any sequence of insert operations preserves bag membership. -/
theorem mem_bag_applyOps_ins (nk : K → NK) (ops : List (MapOp K V)) :
    ∀ (m : List (K × List V)) (x : V) (k : K),
      (∀ op ∈ ops, ∃ k2 v2, op = .ins k2 v2) →
      x ∈ (bagLookup nk m k).getD [] →
      x ∈ (bagLookup nk (applyOps nk m ops) k).getD [] := by
  induction ops with
  | nil => intro m x k _ hx; simpa [applyOps] using hx
  | cons op rest ih =>
    intro m x k hins hx
    obtain ⟨k2, v2, rfl⟩ := hins op (by simp)
    have hstep : x ∈ (bagLookup nk (bagInsert nk m k2 v2) k).getD [] := by
      by_cases h : nk k2 = nk k
      · have hkk : bagLookup nk (bagInsert nk m k2 v2) k
            = some ((bagLookup nk m k).getD [] ++ [v2]) := by
          have := bagLookup_insert_self nk m k2 v2
          -- looking up k sees the same entry as looking up k2
          have hsame : bagLookup nk (bagInsert nk m k2 v2) k
              = bagLookup nk (bagInsert nk m k2 v2) k2 := by
            simp [bagLookup, h]
          have hsame2 : bagLookup nk m k = bagLookup nk m k2 := by
            simp [bagLookup, h]
          rw [hsame, this, hsame2]
        rw [hkk]
        simp only [Option.getD_some, List.mem_append]
        exact Or.inl hx
      · rw [bagLookup_insert_other nk m k k2 v2 h]
        exact hx
    have := ih (bagInsert nk m k2 v2) x k (fun o ho => hins o (by simp [ho])) hstep
    simpa [applyOps] using this

/-- Applying operations that all touch nk-different keys leaves the lookup
of a key unchanged. -/
theorem bagLookup_applyOps_other (nk : K → NK) (ops : List (MapOp K V)) :
    ∀ (m : List (K × List V)) (k : K),
      (∀ op ∈ ops, nk op.key ≠ nk k) →
      bagLookup nk (applyOps nk m ops) k = bagLookup nk m k := by
  induction ops with
  | nil => intro m k _; simp [applyOps]
  | cons op rest ih =>
    intro m k hne
    have h0 := hne op (by simp)
    have hstep : bagLookup nk (applyOp nk m op) k = bagLookup nk m k := by
      cases op with
      | ins k2 v2 => exact bagLookup_insert_other nk m k k2 v2 h0
      | upd k2 v2 => exact bagLookup_update_other nk m k k2 v2 h0
    have := ih (applyOp nk m op) k (fun o ho => hne o (by simp [ho]))
    simpa [applyOps, hstep] using this

theorem applyOps_append (nk : K → NK) (m : List (K × List V))
    (a b_1 : List (MapOp K V)) :
    applyOps nk m (a ++ b_1) = applyOps nk (applyOps nk m a) b_1 := by
  simp [applyOps, List.foldl_append]

end BagMaps

/-- The owned DomainName of src/domain_name.rs as its label byte lists;
equality is case-insensitive label by label. -/
abbrev DName := List (List Nat)

/-- Modelled from the spec: the ResourceData enum (referenced from
src/cache/mod.rs and src/main.rs but missing under src) — variants
A with ttl and the four address octets, and Generic with type, class, ttl
and raw rdata bytes. -/
inductive ResourceData
  | A (ttl : Nat) (addr : List Nat)
  | Generic (typ : DnsType) (cls : DnsClass) (ttl : Nat) (data : List Nat)
deriving DecidableEq, Repr

/-- Modelled from the spec: ResourceData::typ — an A record has Type A,
a generic record carries its own type. -/
def ResourceData.typ : ResourceData → DnsType
  | .A _ _ => .A
  | .Generic t _ _ _ => t

/-- Modelled from the spec: ResourceData::data — the rdata bytes (the four
address octets for A records). -/
def ResourceData.data : ResourceData → List Nat
  | .A _ addr => addr
  | .Generic _ _ _ d => d

/-- CacheKey from src/cache/mod.rs: the (DomainName, Type, rdata bytes)
triple (derived equality, hence case-insensitive in the name). -/
abbrev CacheKey := DName × DnsType × List Nat

/-- Normalised form deciding CacheKey equality. -/
def normKey (k : CacheKey) : DName × DnsType × List Nat :=
  (normName k.1, k.2.1, k.2.2)

/-- Normalised form deciding (DomainName, Type) equality. -/
def normNT (p : DName × DnsType) : DName × DnsType := (normName p.1, p.2)

/-- One evmap side: visible copy plus pending oplog. -/
structure EvMap (K V : Type) where
  vis : List (K × List V)
  log : List (MapOp K V)

/-- The writer state of the cache: the three maps of src/cache/mod.rs. -/
structure EVCacheState where
  table : EvMap CacheKey ResourceData
  byName : EvMap DName CacheKey
  byNameType : EvMap (DName × DnsType) CacheKey

/-- EVControlMessage from src/cache/mod.rs. -/
inductive EVControlMessage
  | Insert (name : DName) (data : ResourceData)
  | Publish

/-- The CacheKey built in EVCacheOperator::listen for an insert. -/
def cacheKeyOf (name : DName) (data : ResourceData) : CacheKey :=
  (name, data.typ, data.data)

/-- One turn of EVCacheOperator::listen from src/cache/mod.rs: Insert
buffers an insert into both indexes and an update into the record table
(invisible to readers); Publish refreshes all three maps, applying their
logs to the visible copies. -/
def EVCacheState.step (s : EVCacheState) : EVControlMessage → EVCacheState
  | .Insert name data =>
    let key := cacheKeyOf name data
    { table := ⟨s.table.vis, s.table.log ++ [.upd key data]⟩
    , byName := ⟨s.byName.vis, s.byName.log ++ [.ins name key]⟩
    , byNameType := ⟨s.byNameType.vis, s.byNameType.log ++ [.ins (name, data.typ) key]⟩ }
  | .Publish =>
    { table := ⟨applyOps normKey s.table.vis s.table.log, []⟩
    , byName := ⟨applyOps normName s.byName.vis s.byName.log, []⟩
    , byNameType := ⟨applyOps normNT s.byNameType.vis s.byNameType.log, []⟩ }

/-- EVCacheOperator::listen consuming a finite command sequence in order
(the channel is FIFO; the whole process runs on one executor thread, so
each message is handled atomically between reads). -/
def EVCacheState.listen (s : EVCacheState) (msgs : List EVControlMessage) :
    EVCacheState :=
  msgs.foldl EVCacheState.step s

/-- evmap get_one: the first value of the bag of the key. -/
def getOne (s : EVCacheState) (k : CacheKey) : Option ResourceData :=
  (bagLookup normKey s.table.vis k).bind List.head?

/-- EVCache::get from src/cache/mod.rs: resolve the key set from the typed
or untyped index, then collect the record of each key from the table
(None when the index has no entry for the key). -/
def EVCacheState.get (s : EVCacheState) (name : DName) (typ : Option DnsType) :
    Option (List ResourceData) :=
  let keys := match typ with
    | some t => bagLookup normNT s.byNameType.vis (name, t)
    | none => bagLookup normName s.byName.vis name
  match keys with
  | none => none
  | some ks => some (ks.filterMap (fun k => getOne s k))

/-- The Insert messages of a bulk. -/
def insMsgs (bulk : List (DName × ResourceData)) : List EVControlMessage :=
  bulk.map (fun p => .Insert p.1 p.2)

/-- The table oplog a bulk contributes. -/
def tableOps (bulk : List (DName × ResourceData)) : List (MapOp CacheKey ResourceData) :=
  bulk.map (fun p => .upd (cacheKeyOf p.1 p.2) p.2)

/-- The by-name oplog a bulk contributes. -/
def byNameOps (bulk : List (DName × ResourceData)) : List (MapOp DName CacheKey) :=
  bulk.map (fun p => .ins p.1 (cacheKeyOf p.1 p.2))

/-- The by-name-and-type oplog a bulk contributes. -/
def byNameTypeOps (bulk : List (DName × ResourceData)) :
    List (MapOp (DName × DnsType) CacheKey) :=
  bulk.map (fun p => .ins (p.1, p.2.typ) (cacheKeyOf p.1 p.2))

theorem listen_ins_eq (bulk : List (DName × ResourceData)) :
    ∀ (s : EVCacheState),
      s.listen (insMsgs bulk)
        = { table := ⟨s.table.vis, s.table.log ++ tableOps bulk⟩
          , byName := ⟨s.byName.vis, s.byName.log ++ byNameOps bulk⟩
          , byNameType := ⟨s.byNameType.vis, s.byNameType.log ++ byNameTypeOps bulk⟩ } := by
  induction bulk with
  | nil =>
    intro s
    simp [EVCacheState.listen, insMsgs, tableOps, byNameOps, byNameTypeOps]
  | cons p rest ih =>
    intro s
    have hstep : s.listen (insMsgs (p :: rest))
        = (s.step (.Insert p.1 p.2)).listen (insMsgs rest) := by
      simp [EVCacheState.listen, insMsgs]
    rw [hstep, ih]
    simp [EVCacheState.step, tableOps, byNameOps, byNameTypeOps]

theorem listen_bulk_publish_eq (s0 : EVCacheState) (bulk : List (DName × ResourceData)) :
    s0.listen (insMsgs bulk ++ [.Publish])
      = { table := ⟨applyOps normKey s0.table.vis (s0.table.log ++ tableOps bulk), []⟩
        , byName := ⟨applyOps normName s0.byName.vis (s0.byName.log ++ byNameOps bulk), []⟩
        , byNameType := ⟨applyOps normNT s0.byNameType.vis
            (s0.byNameType.log ++ byNameTypeOps bulk), []⟩ } := by
  have hsplit : s0.listen (insMsgs bulk ++ [.Publish])
      = (s0.listen (insMsgs bulk)).step .Publish := by
    simp [EVCacheState.listen, List.foldl_append]
  rw [hsplit, listen_ins_eq]
  rfl

/-- C8: commands queued by bulk() are invisible to readers until the
Publish command is processed, and once it is, every reader get — by name or
by name and type — returns every record of the bulk (stated for bulks whose
records have pairwise distinct cache keys; records sharing a key are the
deduplication case of C9).  Reads happen against the visible copies only,
which Insert never touches; Publish applies the buffered operations of all
three maps in one atomic listen turn. -/
theorem c8_bulk_invisible_until_publish_then_atomic
    (s0 : EVCacheState) (bulk : List (DName × ResourceData))
    (hdist : (bulk.map (fun p => normKey (cacheKeyOf p.1 p.2))).Nodup) :
    (∀ name typ, (s0.listen (insMsgs bulk)).get name typ = s0.get name typ) ∧
    (∀ p ∈ bulk,
      p.2 ∈ ((s0.listen (insMsgs bulk ++ [.Publish])).get p.1 none).getD [] ∧
      p.2 ∈ ((s0.listen (insMsgs bulk ++ [.Publish])).get p.1 (some p.2.typ)).getD []) := by
  constructor
  · intro name typ
    rw [listen_ins_eq]
    rfl
  · intro p hp
    rw [listen_bulk_publish_eq]
    obtain ⟨u, v, rfl⟩ := List.append_of_mem hp
    set key := cacheKeyOf p.1 p.2 with hkeydef
    have hvops : ∀ op ∈ tableOps v, normKey (MapOp.key op) ≠ normKey key := by
      intro op hop
      simp only [tableOps, List.mem_map] at hop
      obtain ⟨q, hq, rfl⟩ := hop
      simp only [MapOp.key]
      intro hcontra
      have htail : ((p :: v).map (fun p => normKey (cacheKeyOf p.1 p.2))).Nodup := by
        rw [List.map_append] at hdist
        exact hdist.of_append_right
      have hnotin : normKey key ∉ (v.map (fun p => normKey (cacheKeyOf p.1 p.2))) := by
        simp only [List.map_cons, List.nodup_cons] at htail
        exact htail.1
      exact hnotin (by rw [← hcontra]; exact List.mem_map_of_mem _ hq)
    have htab : bagLookup normKey
        (applyOps normKey s0.table.vis (s0.table.log ++ tableOps (u ++ p :: v)))
        key = some [p.2] := by
      have hops : s0.table.log ++ tableOps (u ++ p :: v)
          = (s0.table.log ++ tableOps u ++ [.upd key p.2]) ++ tableOps v := by
        simp [tableOps, hkeydef]
      rw [hops, applyOps_append]
      rw [bagLookup_applyOps_other _ _ _ _ hvops]
      rw [applyOps_append]
      simp only [applyOps, List.foldl_cons, List.foldl_nil, applyOp]
      exact bagLookup_update_self _ _ _ _
    constructor
    · have hbn : key ∈ (bagLookup normName
          (applyOps normName s0.byName.vis (s0.byName.log ++ byNameOps (u ++ p :: v)))
          p.1).getD [] := by
        have hbnops : ∀ op ∈ byNameOps v, ∃ k2 v2, op = MapOp.ins k2 v2 := by
          intro op hop
          simp only [byNameOps, List.mem_map] at hop
          obtain ⟨q, _, rfl⟩ := hop
          exact ⟨_, _, rfl⟩
        have hops : s0.byName.log ++ byNameOps (u ++ p :: v)
            = (s0.byName.log ++ byNameOps u ++ [.ins p.1 key]) ++ byNameOps v := by
          simp [byNameOps, hkeydef]
        rw [hops, applyOps_append]
        apply mem_bag_applyOps_ins _ _ _ _ _ hbnops
        rw [applyOps_append]
        simp only [applyOps, List.foldl_cons, List.foldl_nil, applyOp]
        rw [bagLookup_insert_self]
        simp
      simp only [EVCacheState.get]
      cases hks : bagLookup normName
          (applyOps normName s0.byName.vis (s0.byName.log ++ byNameOps (u ++ p :: v)))
          p.1 with
      | none => rw [hks] at hbn; simp at hbn
      | some ks =>
        rw [hks] at hbn
        simp only [Option.getD_some] at hbn ⊢
        refine List.mem_filterMap.mpr ⟨key, hbn, ?_⟩
        simp only [getOne]
        rw [htab]
        rfl
    · have hbt : key ∈ (bagLookup normNT
          (applyOps normNT s0.byNameType.vis
            (s0.byNameType.log ++ byNameTypeOps (u ++ p :: v)))
          (p.1, p.2.typ)).getD [] := by
        have hbtops : ∀ op ∈ byNameTypeOps v, ∃ k2 v2, op = MapOp.ins k2 v2 := by
          intro op hop
          simp only [byNameTypeOps, List.mem_map] at hop
          obtain ⟨q, _, rfl⟩ := hop
          exact ⟨_, _, rfl⟩
        have hops : s0.byNameType.log ++ byNameTypeOps (u ++ p :: v)
            = (s0.byNameType.log ++ byNameTypeOps u ++ [.ins (p.1, p.2.typ) key])
                ++ byNameTypeOps v := by
          simp [byNameTypeOps, hkeydef]
        rw [hops, applyOps_append]
        apply mem_bag_applyOps_ins _ _ _ _ _ hbtops
        rw [applyOps_append]
        simp only [applyOps, List.foldl_cons, List.foldl_nil, applyOp]
        rw [bagLookup_insert_self]
        simp
      simp only [EVCacheState.get]
      cases hks : bagLookup normNT
          (applyOps normNT s0.byNameType.vis
            (s0.byNameType.log ++ byNameTypeOps (u ++ p :: v)))
          (p.1, p.2.typ) with
      | none => rw [hks] at hbt; simp at hbt
      | some ks =>
        rw [hks] at hbt
        simp only [Option.getD_some] at hbt ⊢
        refine List.mem_filterMap.mpr ⟨key, hbt, ?_⟩
        simp only [getOne]
        rw [htab]
        rfl

/-- The cache state evmap::new produces: all maps empty, no pending ops. -/
def emptyCache : EVCacheState := ⟨⟨[], []⟩, ⟨[], []⟩, ⟨[], []⟩⟩

/-- The two-record bulk used as the C8 witness. -/
def c8Bulk : List (DName × ResourceData) :=
  [([[97]], .A 1 [1, 2, 3, 4]), ([[98]], .A 1 [5, 6, 7, 8])]

/-- Witness for C8 at the empty cache and a concrete two-record bulk with
distinct keys. -/
theorem c8_bulk_invisible_until_publish_then_atomic_witness :
    ((c8Bulk.map (fun p => normKey (cacheKeyOf p.1 p.2))).Nodup) ∧
    ((∀ name typ,
        (emptyCache.listen (insMsgs c8Bulk)).get name typ = emptyCache.get name typ) ∧
     (∀ p ∈ c8Bulk,
        p.2 ∈ ((emptyCache.listen (insMsgs c8Bulk ++ [.Publish])).get p.1 none).getD [] ∧
        p.2 ∈ ((emptyCache.listen
            (insMsgs c8Bulk ++ [.Publish])).get p.1 (some p.2.typ)).getD [])) :=
  ⟨by decide,
   c8_bulk_invisible_until_publish_then_atomic emptyCache c8Bulk (by decide)⟩

/-- C9 (amended): inserting the identical record twice and publishing
leaves a single stored resource under its cache key in the record table
(update replaces the bag), but the by-name and by-name-and-type indexes
keep one key entry per insert, so a subsequent get — by name or by name
and type — returns that single resource once per insert, i.e. twice, not
exactly once. -/
theorem c9_duplicate_insert_dedups_table_but_get_repeats
    (name : DName) (d : ResourceData) :
    bagLookup normKey
        ((emptyCache.listen [.Insert name d, .Insert name d, .Publish]).table.vis)
        (cacheKeyOf name d) = some [d] ∧
    (emptyCache.listen [.Insert name d, .Insert name d, .Publish]).get name none
      = some [d, d] ∧
    (emptyCache.listen [.Insert name d, .Insert name d, .Publish]).get name
        (some d.typ) = some [d, d] := by
  have hmsgs : ([.Insert name d, .Insert name d, .Publish] : List EVControlMessage)
      = insMsgs [(name, d), (name, d)] ++ [.Publish] := rfl
  rw [hmsgs, listen_bulk_publish_eq]
  refine ⟨?_, ?_, ?_⟩
  · simp [tableOps, applyOps, applyOp, bagUpdate, bagLookup, List.find?,
      emptyCache, cacheKeyOf]
  · simp [EVCacheState.get, getOne, tableOps, byNameOps, applyOps, applyOp,
      bagUpdate, bagInsert, bagLookup, List.find?, emptyCache, cacheKeyOf]
  · simp [EVCacheState.get, getOne, tableOps, byNameTypeOps, applyOps, applyOp,
      bagUpdate, bagInsert, bagLookup, List.find?, emptyCache, cacheKeyOf]

/-- C9 (counterexample): the claim states that after inserting the
identical record twice and publishing, a get returns the resource exactly
once.  This is false: evmap insert appends one key entry per insert to the
index bag, so get returns the single stored resource twice. -/
theorem c9_get_returns_resource_once_per_insert :
    (emptyCache.listen
        [.Insert [[97]] (.A 300 [8, 8, 8, 8]),
         .Insert [[97]] (.A 300 [8, 8, 8, 8]), .Publish]).get [[97]] none
      = some [.A 300 [8, 8, 8, 8], .A 300 [8, 8, 8, 8]] := by decide

end DnsSpec
